import Mathlib

set_option maxRecDepth 8000
set_option linter.dupNamespace false

/-!
Verification of the txt-ewClassifier repository (src/main.go and the
secondary variant src/unnamed/part_000).

Go strings are modelled as byte lists (`GoStr := List Nat`, each entry
below 256).  A faithful UTF-8 layer reproduces how Go iterates strings
rune by rune (`for _, r := range s`), how `strings.Map`-based functions
re-encode runes (replacing invalid bytes by U+FFFD), and how byte
indexing such as `word[0]` slices encoded characters.  The Unicode
classification tables (`unicode.IsLetter`, `unicode.Latin`,
`unicode.ToUpper`, `unicode.ToLower`) are modelled by fragments that are
exact on the code points the theorems touch (all of Basic Latin and
Latin-1, plus U+FFFD); the doc comment of each table states its scope.
-/

/-- A Go string: its bytes. -/
abbrev GoStr := List Nat

/-- Byte list of an ASCII Lean literal (used only on ASCII literals,
where code point and byte coincide). -/
def ascii (s : String) : GoStr := s.data.map (fun c => c.toNat)

/-- Is `b` a UTF-8 continuation byte (0x80..0xBF)? -/
def contB (b : Nat) : Bool := 128 ≤ b && b ≤ 191

/-- Value of a two-byte UTF-8 sequence. -/
def rune2 (b0 b1 : Nat) : Nat := (b0 - 192) * 64 + (b1 - 128)

/-- Value of a three-byte UTF-8 sequence. -/
def rune3 (b0 b1 b2 : Nat) : Nat :=
  (b0 - 224) * 4096 + (b1 - 128) * 64 + (b2 - 128)

/-- Value of a four-byte UTF-8 sequence. -/
def rune4 (b0 b1 b2 b3 : Nat) : Nat :=
  (b0 - 240) * 262144 + (b1 - 128) * 4096 + (b2 - 128) * 64 + (b3 - 128)

/-- Valid range of the second byte given the first, per Go
`unicode/utf8.acceptRanges` (rejects overlong encodings, surrogates and
code points above U+10FFFF). -/
def okB1 (b0 b1 : Nat) : Bool :=
  if b0 = 224 then 160 ≤ b1 && b1 ≤ 191
  else if b0 = 237 then 128 ≤ b1 && b1 ≤ 159
  else if b0 = 240 then 144 ≤ b1 && b1 ≤ 191
  else if b0 = 244 then 128 ≤ b1 && b1 ≤ 143
  else contB b1

/-- Decode a byte string into its sequence of (rune, consumed bytes)
pairs, exactly as the Go statement `for _, r := range s` visits it:
a malformed byte yields U+FFFD (65533) and consumes one byte
(`utf8.DecodeRuneInString` semantics). -/
def utf8Chunks : List Nat → List (Nat × List Nat)
  | [] => []
  | b0 :: t0 =>
    if b0 ≤ 127 then (b0, [b0]) :: utf8Chunks t0
    else if 194 ≤ b0 && b0 ≤ 223 then
      match t0 with
      | b1 :: t1 =>
        if contB b1 then (rune2 b0 b1, [b0, b1]) :: utf8Chunks t1
        else (65533, [b0]) :: utf8Chunks (b1 :: t1)
      | [] => [(65533, [b0])]
    else if 224 ≤ b0 && b0 ≤ 239 then
      match t0 with
      | b1 :: b2 :: t2 =>
        if okB1 b0 b1 && contB b2 then (rune3 b0 b1 b2, [b0, b1, b2]) :: utf8Chunks t2
        else (65533, [b0]) :: utf8Chunks (b1 :: b2 :: t2)
      | [b1] => (65533, [b0]) :: utf8Chunks [b1]
      | [] => [(65533, [b0])]
    else if 240 ≤ b0 && b0 ≤ 244 then
      match t0 with
      | b1 :: b2 :: b3 :: t3 =>
        if okB1 b0 b1 && contB b2 && contB b3 then
          (rune4 b0 b1 b2 b3, [b0, b1, b2, b3]) :: utf8Chunks t3
        else (65533, [b0]) :: utf8Chunks (b1 :: b2 :: b3 :: t3)
      | [b1, b2] => (65533, [b0]) :: utf8Chunks [b1, b2]
      | [b1] => (65533, [b0]) :: utf8Chunks [b1]
      | [] => [(65533, [b0])]
    else (65533, [b0]) :: utf8Chunks t0

/-- The runes of a Go string, as `for _, r := range s` sees them. -/
def utf8Runes (s : GoStr) : List Nat := (utf8Chunks s).map (fun c => c.1)

/-- UTF-8 encoding of a rune, per Go `utf8.EncodeRune` (surrogates and
out-of-range values encode U+FFFD). -/
def utf8EncodeRune (r : Nat) : GoStr :=
  if r ≤ 127 then [r]
  else if r ≤ 2047 then [192 + r / 64, 128 + r % 64]
  else if 55296 ≤ r && r ≤ 57343 then [239, 191, 189]
  else if r ≤ 65535 then [224 + r / 4096, 128 + (r / 64) % 64, 128 + r % 64]
  else if r ≤ 1114111 then
    [240 + r / 262144, 128 + (r / 4096) % 64, 128 + (r / 64) % 64, 128 + r % 64]
  else [239, 191, 189]

/-- Fragment of `unicode.ToLower` (simple case mapping): exact on code
points up to U+00FF and on U+FFFD; identity elsewhere.  All theorems
evaluate it inside that fragment. -/
def toLowerR (r : Nat) : Nat :=
  if 65 ≤ r && r ≤ 90 then r + 32
  else if 192 ≤ r && r ≤ 222 && r ≠ 215 then r + 32
  else r

/-- Fragment of `unicode.ToUpper` (simple case mapping): exact on code
points up to U+00FF and on U+FFFD; identity elsewhere. -/
def toUpperR (r : Nat) : Nat :=
  if 97 ≤ r && r ≤ 122 then r - 32
  else if 224 ≤ r && r ≤ 254 && r ≠ 247 then r - 32
  else if r = 255 then 376
  else if r = 181 then 924
  else r

/-- Go `unicode.IsSpace` (the White_Space property), complete table. -/
def isSpaceR (r : Nat) : Bool :=
  (9 ≤ r && r ≤ 13) || r = 32 || r = 133 || r = 160 ||
  r = 5760 || (8192 ≤ r && r ≤ 8202) || r = 8232 || r = 8233 ||
  r = 8239 || r = 8287 || r = 12288

/-- Fragment of `unicode.IsLetter`: exact on code points up to U+024F
(Basic Latin, Latin-1, Latin Extended-A and B); false above.  All
theorems evaluate it inside that fragment. -/
def isLetterR (r : Nat) : Bool :=
  (65 ≤ r && r ≤ 90) || (97 ≤ r && r ≤ 122) || r = 170 || r = 181 || r = 186 ||
  (192 ≤ r && r ≤ 214) || (216 ≤ r && r ≤ 246) || (248 ≤ r && r ≤ 591)

/-- Fragment of the `unicode.Latin` script table: exact on code points
up to U+02B8; false above.  In particular space (32), hyphen (45) and
slash (47) are not in the Latin script. -/
def inLatinR (r : Nat) : Bool :=
  (65 ≤ r && r ≤ 90) || (97 ≤ r && r ≤ 122) || r = 170 || r = 186 ||
  (192 ≤ r && r ≤ 214) || (216 ≤ r && r ≤ 246) || (248 ≤ r && r ≤ 696)

/-- Go `strings.Map f s`: decode the runes (invalid bytes decoding to
U+FFFD) and re-encode their images.  Observationally equal to the Go
implementation, whose unchanged-prefix fast path returns the same
bytes. -/
def goMapRunes (f : Nat → Nat) (s : GoStr) : GoStr :=
  ((utf8Runes s).map (fun r => utf8EncodeRune (f r))).flatten

/-- Go `strings.ToLower`. -/
def goToLower (s : GoStr) : GoStr := goMapRunes toLowerR s

/-- Go `strings.ToUpper`. -/
def goToUpper (s : GoStr) : GoStr := goMapRunes toUpperR s

/-- Accumulator for `goFields`: group the chunks of a string into
maximal runs separated by white-space runes. -/
def fieldsAccum (c : Nat × List Nat) (acc : List GoStr) : List GoStr :=
  if isSpaceR c.1 then [] :: acc
  else
    match acc with
    | [] => [c.2]
    | f :: fs => (c.2 ++ f) :: fs

/-- Go `strings.Fields s`: the maximal runs of non-white-space
characters of `s`, keeping their original bytes. -/
def goFields (s : GoStr) : List GoStr :=
  ((utf8Chunks s).foldr fieldsAccum [[]]).filter (fun f => !f.isEmpty)

/-- Left half of Go `strings.TrimSpace`: drop the leading white-space
runes, keeping the original bytes of the remainder. -/
def trimLeftSpace (s : GoStr) : GoStr :=
  (((utf8Chunks s).dropWhile (fun c => isSpaceR c.1)).map (fun c => c.2)).flatten

/-- Right half of Go `strings.TrimSpace`, on the reversed byte list:
repeatedly drop the last rune while it is white space, per
`utf8.DecodeLastRune` (an invalid final sequence is a single-byte
U+FFFD, which is not white space, so trimming stops there). -/
def trimRightRev : GoStr → GoStr
  | [] => []
  | b :: t =>
    if b = 9 || b = 10 || b = 11 || b = 12 || b = 13 || b = 32 then trimRightRev t
    else
      match b, t with
      | 133, 194 :: t2 => trimRightRev t2
      | 160, 194 :: t2 => trimRightRev t2
      | 128, 154 :: 225 :: t3 => trimRightRev t3
      | 159, 129 :: 226 :: t3 => trimRightRev t3
      | b2, 128 :: 226 :: t3 =>
        if (128 ≤ b2 && b2 ≤ 138) || b2 = 168 || b2 = 169 || b2 = 175
        then trimRightRev t3
        else b :: t
      | 128, 128 :: 227 :: t3 => trimRightRev t3
      | _, _ => b :: t

/-- Go `strings.TrimSpace`. -/
def goTrimSpace (s : GoStr) : GoStr :=
  (trimRightRev (trimLeftSpace s).reverse).reverse

/-- Go `strings.Split(s, sep)` for a one-byte separator (separator
bytes below 128 never occur inside a multi-byte character, so the byte
split is exact). -/
def splitOnByte (sep : Nat) : GoStr → List GoStr
  | [] => [[]]
  | b :: t =>
    let r := splitOnByte sep t
    if b = sep then [] :: r
    else
      match r with
      | [] => [[b]]
      | f :: fs => (b :: f) :: fs

/-- Source `splitSlashSeparatedWords` (main.go:105, part_000:41):
split on slash, then `strings.TrimSpace` each part. -/
def splitSlashSeparatedWords (text : GoStr) : List GoStr :=
  (splitOnByte 47 text).map goTrimSpace

/-- One word of `capitalizePhrase`: Go evaluates
`strings.ToUpper(string(word[0])) + strings.ToLower(word[1:])`, so the
first BYTE is converted to a string on its own (splitting a multi-byte
character) and the remaining bytes are lowered.  The empty-word guard
is main.go:91. -/
def capWordGo (w : GoStr) : GoStr :=
  match w with
  | [] => []
  | b :: rest => goToUpper (utf8EncodeRune b) ++ goToLower rest

/-- Source `capitalizePhrase` (main.go:88, part_000:32): capitalize
each white-space-separated sub-word and join with single spaces. -/
def capitalizePhrase (phrase : GoStr) : GoStr :=
  List.intercalate [32] ((goFields phrase).map capWordGo)

/-- Source `isEnglishText` (main.go:76, part_000:19): every ranged rune
must satisfy both conditions of the loop, i.e. be a letter or one of
space, hyphen, slash, AND lie in the Latin script.  The early-exit
loop is equivalently the conjunction over all runes. -/
def isEnglishText (text : GoStr) : Bool :=
  (utf8Runes text).all
    (fun r => (isLetterR r || r == 32 || r == 45 || r == 47) && inLatinR r)

/-- Decimal rendering of a number (Go `fmt` verb d for a non-negative
int). -/
def natToDec (n : Nat) : GoStr := (Nat.toDigits 10 n).map (fun c => c.toNat)

/-- Increment the count of key `k` in an association-list model of a Go
`map[string]int` (`m[k]++`); enumeration order of the model is first
insertion, standing for the unspecified iteration order of the Go map. -/
def bumpCount (m : List (GoStr × Nat)) (k : GoStr) : List (GoStr × Nat) :=
  if (List.lookup k m).isSome then
    m.map (fun p => if p.1 = k then (p.1, p.2 + 1) else p)
  else m ++ [(k, 1)]

/-- Source `countFrequencies` (main.go:113, part_000:50): count the
items under their capitalized form. -/
def countFrequencies (content : List GoStr) : List (GoStr × Nat) :=
  content.foldl (fun m item => bumpCount m (capitalizePhrase item)) []

/-- Insert a pair into a count-descending list, keeping it
non-increasing in the count (stable insertion). -/
def insertByFreq (x : GoStr × Nat) : List (GoStr × Nat) → List (GoStr × Nat)
  | [] => [x]
  | y :: ys => if y.2 < x.2 then x :: y :: ys else y :: insertByFreq x ys

/-- The pairs sorted by count descending.  Go sorts with
`sort.Slice(items, freq_i > freq_j)` over the unspecified map
iteration order, so the relative order of equal counts is unspecified;
the model fixes the stable order.  Whenever all counts are distinct
(as in every concrete theorem below) the Go result is unique and
coincides with the model. -/
def sortPairsByFreq (l : List (GoStr × Nat)) : List (GoStr × Nat) :=
  l.foldr insertByFreq []

/-- Source `sortByFrequency` (main.go:121, part_000:60): the words of
the count map, by count descending. -/
def sortByFrequency (counts : List (GoStr × Nat)) : List GoStr :=
  (sortPairsByFreq counts).map (fun p => p.1)

/-- The frequency-ranker contract of the specification: words to
(canonicalWord, count) pairs sorted by count descending, the
composition of `countFrequencies` and the sort that
`sortByFrequency` projects. -/
def rank (words : List GoStr) : List (GoStr × Nat) :=
  sortPairsByFreq (countFrequencies words)

/-- A tagged token from the prose tagger. -/
structure Token where
  Text : GoStr
  Tag : GoStr

/-- The five categories. -/
inductive Category where
  | Nouns | Verbs | Adjectives | Adverbs | OtherWords
deriving DecidableEq

/-- The tag switch of `categorizeText` (main.go:704, part_000:184). -/
def tagCategory (tag : GoStr) : Category :=
  if [ascii "NN", ascii "NNS", ascii "NNP", ascii "NNPS"].contains tag then .Nouns
  else if [ascii "VB", ascii "VBD", ascii "VBP", ascii "VBZ", ascii "VBG"].contains tag then .Verbs
  else if [ascii "JJ", ascii "JJR", ascii "JJS"].contains tag then .Adjectives
  else if [ascii "RB", ascii "RBR", ascii "RBS"].contains tag then .Adverbs
  else .OtherWords

/-- State built by the token loop of `categorizeText`: the
`categorizedWords` map and the `allWords` count map. -/
structure ClassifyState where
  categorized : Category → List GoStr
  allWords : List (GoStr × Nat)

/-- One token of the classification loop of `categorizeText`
(main.go:694-719, part_000:174-199): lower-case the token text, split
on slashes, and for each part passing `isEnglishText` bump its
all-words count and append it to the category selected by the tag of
THIS token occurrence. -/
def classifyToken (st : ClassifyState) (tok : Token) : ClassifyState :=
  (splitSlashSeparatedWords (goToLower tok.Text)).foldl
    (fun s part =>
      if isEnglishText part then
        { categorized := fun c2 =>
            if c2 = tagCategory tok.Tag then s.categorized c2 ++ [part]
            else s.categorized c2,
          allWords := bumpCount s.allWords part }
      else s)
    st

/-- The whole token loop of `categorizeText`. -/
def classifyTokens (toks : List Token) : ClassifyState :=
  toks.foldl classifyToken { categorized := fun _ => [], allWords := [] }

/-- All five categories. -/
def allCategories : List Category :=
  [.Nouns, .Verbs, .Adjectives, .Adverbs, .OtherWords]

/-- How many categories contain the word `w` after classification. -/
def categoriesContaining (st : ClassifyState) (w : GoStr) : Nat :=
  (allCategories.filter (fun c => (st.categorized c).contains w)).length

/-- Source struct `Definition` (main.go:49). -/
structure Definition where
  PartOfSpeech : GoStr
  Definition : GoStr
  Example : GoStr
  Synonyms : List GoStr
  Antonyms : List GoStr
deriving DecidableEq

/-- Source struct `WordCache` (main.go:57). -/
structure WordCache where
  Definitions : List Definition
  Phonetic : GoStr
  Origin : GoStr
  Synonyms : List GoStr
  Antonyms : List GoStr
deriving DecidableEq

/-- The zero value of `WordCache` (what a Go map read returns for a
missing key). -/
def emptyWordCache : WordCache :=
  { Definitions := [], Phonetic := [], Origin := [], Synonyms := [], Antonyms := [] }

/-- Source struct `OutputConfig` (main.go:29), the fields the resolver
reads. -/
structure OutputConfig where
  IncludePhonetic : Bool
  IncludeOrigin : Bool
  IncludeSynonyms : Bool
  IncludeAntonyms : Bool
  FilterNoExample : Bool

/-- Source struct `QueryConfig` (main.go:40). -/
structure QueryConfig where
  QueryForUnknownWords : Bool

/-- One definition object of the dictionary-service response
(`meanings[].definitions[]`).  String fields that are absent or not of
string type decode to the empty string, which the code treats exactly
like an absent field; non-string elements of the synonym and antonym
arrays are skipped by the code and are therefore not modelled. -/
structure ApiDefObj where
  defnText : GoStr
  exampleText : GoStr
  synonyms : List GoStr
  antonyms : List GoStr

/-- One meaning object of the response. -/
structure ApiMeaning where
  partOfSpeech : GoStr
  definitions : List ApiDefObj

/-- One entry object of the response array.  `phoneticsTexts` lists the
`text` fields of the `phonetics` array (absent text fields decode to
the empty string, which the code skips). -/
structure ApiEntry where
  phonetic : GoStr
  phoneticsTexts : List GoStr
  origin : GoStr
  meanings : List ApiMeaning

/-- The body of a 200 response: either JSON that fails to unmarshal
into the expected array shape, or the array of entries. -/
inductive ApiBody where
  | malformed
  | entries (es : List ApiEntry)

/-- The outcome of one network attempt for a word: transport error
(`client.Do` returned an error) or a reply with a status code and a
body. -/
inductive ApiReply where
  | noReply
  | reply (status : Nat) (body : ApiBody)

/-- Resolver-visible global state: the `wordCache` and `wordUnknown`
maps (association lists keyed by lower-case words) plus a counter of
network attempts (`client.Do` invocations), which the Go code performs
once per `queryDictionaryAPI` call. -/
structure St where
  wordCache : List (GoStr × WordCache)
  wordUnknown : List GoStr
  netCalls : Nat

/-- Insert a word into the unknown-marker map (`wordUnknown[w] = true`). -/
def insertUnknown (u : List GoStr) (w : GoStr) : List GoStr :=
  if u.contains w then u else u ++ [w]

/-- Store a cache entry (`wordCache[k] = v`). -/
def putCache (m : List (GoStr × WordCache)) (k : GoStr) (v : WordCache) :
    List (GoStr × WordCache) :=
  if (List.lookup k m).isSome then m.map (fun p => if p.1 = k then (k, v) else p)
  else m ++ [(k, v)]

/-- Build the `WordCache` from the first response entry, per the
response processing of `queryDictionaryAPI` (main.go:353-441): phonetic
from the top-level field, else the first non-empty phonetics text;
origin from the top level; one `Definition` per definition object in
meaning order, with the definition-level synonyms and antonyms also
appended to the entry-level aggregates. -/
def processEntry (e : ApiEntry) : WordCache :=
  let ph0 := e.phonetic
  let ph := if ph0.isEmpty then
      ((e.phoneticsTexts.filter (fun t => !t.isEmpty)).head?).getD []
    else ph0
  { Definitions := e.meanings.flatMap (fun m => m.definitions.map (fun d =>
      { PartOfSpeech := m.partOfSpeech, Definition := d.defnText,
        Example := d.exampleText, Synonyms := d.synonyms, Antonyms := d.antonyms })),
    Phonetic := ph,
    Origin := e.origin,
    Synonyms := e.meanings.flatMap (fun m => m.definitions.flatMap (fun d => d.synonyms)),
    Antonyms := e.meanings.flatMap (fun m => m.definitions.flatMap (fun d => d.antonyms)) }

/-- Source `queryDictionaryAPI` (main.go:328-451): issue one network
attempt; on transport error, non-200 status, unmarshal failure or an
empty result array return false; otherwise build the entry from
`result[0]` and store it under the lower-cased word if and only if it
has at least one definition.  `net` is the network oracle of the run:
the reply the service gives for each word. -/
def queryDictionaryAPI (net : GoStr → ApiReply) (word : GoStr) (st : St) : Bool × St :=
  let st1 : St := { st with netCalls := st.netCalls + 1 }
  match net word with
  | .noReply => (false, st1)
  | .reply status body =>
    if status ≠ 200 then (false, st1)
    else
      match body with
      | .malformed => (false, st1)
      | .entries [] => (false, st1)
      | .entries (e0 :: _) =>
        let cachedData := processEntry e0
        if cachedData.Definitions.isEmpty then (false, st1)
        else (true, { st1 with wordCache := putCache st1.wordCache (goToLower word) cachedData })

/-- Trim the leading and trailing newlines of the built output
(`strings.Trim(s, "\n")`; byte 10 is never part of a multi-byte
character). -/
def goTrimNL (s : GoStr) : GoStr :=
  ((s.dropWhile (fun b => b == 10)).reverse.dropWhile (fun b => b == 10)).reverse

/-- The text the definition loop of `fetchWordDetails` (main.go:517-545)
emits for the definition at 0-based index `i`: skipped entirely when
the example filter is on and the definition has no example; otherwise
the numbered definition line, then example, synonyms and antonyms
lines, each gated by its own toggle and non-emptiness. -/
def defLineText (cfg : OutputConfig) (cap : GoStr) (i : Nat) (d : Definition) : GoStr :=
  if cfg.FilterNoExample && d.Example.isEmpty then []
  else
    let n := natToDec (i + 1)
    [9] ++ cap ++ [32] ++ n ++ ascii ", " ++ d.PartOfSpeech ++ ascii ": " ++
      d.Definition ++ [10] ++
    (if !d.Example.isEmpty then
      [9, 9] ++ cap ++ [32] ++ n ++ ascii " Example: " ++ d.Example ++ [10] else []) ++
    (if cfg.IncludeSynonyms && !d.Synonyms.isEmpty then
      [9, 9] ++ cap ++ [32] ++ n ++ ascii " Synonyms: " ++
        List.intercalate (ascii ", ") d.Synonyms ++ [10] else []) ++
    (if cfg.IncludeAntonyms && !d.Antonyms.isEmpty then
      [9, 9] ++ cap ++ [32] ++ n ++ ascii " Antonyms: " ++
        List.intercalate (ascii ", ") d.Antonyms ++ [10] else [])

/-- The formatting tail of `fetchWordDetails` (main.go:492-547), run on
the cached data of `w`: header line (word, optionally with phonetic),
optional origin line; if the entry has no definitions, mark `w` unknown
and return the empty string; otherwise append the definition blocks and
trim the outer newlines. -/
def formatDetails (cfg : OutputConfig) (w : GoStr) (cd : WordCache) (st : St) :
    GoStr × St :=
  let cap := capitalizePhrase w
  let header := if !cd.Phonetic.isEmpty && cfg.IncludePhonetic then
      cap ++ [32] ++ cd.Phonetic ++ [10]
    else cap ++ [10]
  let originLine := if cfg.IncludeOrigin && !cd.Origin.isEmpty then
      [9] ++ ascii "Origin: " ++ cd.Origin ++ [10]
    else []
  if cd.Definitions.isEmpty then
    ([], { st with wordUnknown := insertUnknown st.wordUnknown w })
  else
    (goTrimNL (header ++ originLine ++
      (cd.Definitions.enum.map (fun p => defLineText cfg cap p.1 p.2)).flatten), st)

/-- The cache-or-query phase of `fetchWordDetails` (main.go:475-490
followed by the formatting tail): if `w` is cached, format it;
otherwise query once, on failure mark `w` unknown and return the empty
string, on success format the freshly stored entry (a missing
re-lookup reads the Go zero value). -/
def fetchCachePhase (cfg : OutputConfig) (net : GoStr → ApiReply) (w : GoStr)
    (st : St) : GoStr × St :=
  match List.lookup w st.wordCache with
  | some cachedData => formatDetails cfg w cachedData st
  | none =>
    let q := queryDictionaryAPI net w st
    if !q.1 then
      ([], { q.2 with wordUnknown := insertUnknown q.2.wordUnknown w })
    else
      formatDetails cfg w ((List.lookup w q.2.wordCache).getD emptyWordCache) q.2

/-- Source `fetchWordDetails` (main.go:454-548): lower-case the word;
if it carries an unknown marker, return empty at once unless
`queryForUnknownWords` is set, in which case re-query and, on success,
clear the marker; then resolve through the cache-or-query phase. -/
def fetchWordDetails (cfg : OutputConfig) (qc : QueryConfig) (net : GoStr → ApiReply)
    (word : GoStr) (st : St) : GoStr × St :=
  let w := goToLower word
  if st.wordUnknown.contains w then
    if !qc.QueryForUnknownWords then ([], st)
    else
      let q := queryDictionaryAPI net w st
      if !q.1 then ([], q.2)
      else
        let st2 : St := { q.2 with wordUnknown := q.2.wordUnknown.filter (fun u => u != w) }
        fetchCachePhase cfg net w st2
  else
    fetchCachePhase cfg net w st

/-- Does this reply count as a failed lookup in the sense of the
specification: transport error, non-success status, malformed body,
or an empty result array? -/
def apiFailure : ApiReply → Bool
  | .noReply => true
  | .reply status body =>
    if status ≠ 200 then true
    else
      match body with
      | .malformed => true
      | .entries [] => true
      | .entries (_ :: _) => false

/-- A JSON document, the level at which `saveWordCache` and
`loadWordCache` (main.go:262, main.go:247) are modelled: marshalling
to bytes and parsing back is the identity on documents, so the
round-trip content is decided here.  Numbers and booleans do not occur
in the cache schema. -/
inductive Jval where
  | jnull
  | jstr (s : GoStr)
  | jarr (items : List Jval)
  | jobj (fields : List (GoStr × Jval))

/-- Marshal one `Definition` (no json tags in the source, so the Go
field names are the keys; no omitempty, so every field is emitted). -/
def encodeDefinition (d : Definition) : Jval :=
  .jobj [(ascii "PartOfSpeech", .jstr d.PartOfSpeech),
         (ascii "Definition", .jstr d.Definition),
         (ascii "Example", .jstr d.Example),
         (ascii "Synonyms", .jarr (d.Synonyms.map .jstr)),
         (ascii "Antonyms", .jarr (d.Antonyms.map .jstr))]

/-- Marshal one `WordCache`. -/
def encodeWordCache (c : WordCache) : Jval :=
  .jobj [(ascii "Definitions", .jarr (c.Definitions.map encodeDefinition)),
         (ascii "Phonetic", .jstr c.Phonetic),
         (ascii "Origin", .jstr c.Origin),
         (ascii "Synonyms", .jarr (c.Synonyms.map .jstr)),
         (ascii "Antonyms", .jarr (c.Antonyms.map .jstr))]

/-- Source `saveWordCache` (main.go:262-268): marshal the whole map.
The model keeps the association order of the in-memory map as the
document order (Go emits map keys sorted; document key order does not
affect the decoded map). -/
def saveWordCache (m : List (GoStr × WordCache)) : Jval :=
  .jobj (m.map (fun p => (p.1, encodeWordCache p.2)))

/-- Unmarshal a JSON value into a Go string field: null leaves the zero
value, any non-string value is an unmarshal error. -/
def asStr : Jval → Option GoStr
  | .jstr s => some s
  | .jnull => some []
  | _ => none

/-- Unmarshal an array of strings element-wise. -/
def decStrItems : List Jval → Option (List GoStr)
  | [] => some []
  | j :: js =>
    match j with
    | .jstr s => (decStrItems js).map (fun r => s :: r)
    | _ => none

/-- Unmarshal a JSON value into a `[]string` field: null is the nil
slice. -/
def asStrList : Jval → Option (List GoStr)
  | .jnull => some []
  | .jarr items => decStrItems items
  | _ => none

/-- Apply one JSON object field to a `Definition` being decoded, the
way `encoding/json` walks the document: known keys set the struct
field, unknown keys are ignored. -/
def applyDefField (d : Definition) (kv : GoStr × Jval) : Option Definition :=
  if kv.1 = ascii "PartOfSpeech" then (asStr kv.2).map (fun s => { d with PartOfSpeech := s })
  else if kv.1 = ascii "Definition" then (asStr kv.2).map (fun s => { d with Definition := s })
  else if kv.1 = ascii "Example" then (asStr kv.2).map (fun s => { d with Example := s })
  else if kv.1 = ascii "Synonyms" then (asStrList kv.2).map (fun l => { d with Synonyms := l })
  else if kv.1 = ascii "Antonyms" then (asStrList kv.2).map (fun l => { d with Antonyms := l })
  else some d

/-- Fold the object fields over a `Definition` under decode. -/
def decodeFieldsD : Definition → List (GoStr × Jval) → Option Definition
  | d, [] => some d
  | d, kv :: rest => (applyDefField d kv).bind (fun d2 => decodeFieldsD d2 rest)

/-- Unmarshal a `Definition` from a JSON value (missing fields keep the
zero value, null leaves the zero value). -/
def decodeDefinition : Jval → Option Definition
  | .jobj fs => decodeFieldsD ⟨[], [], [], [], []⟩ fs
  | .jnull => some ⟨[], [], [], [], []⟩
  | _ => none

/-- Unmarshal an array of definitions element-wise. -/
def decDefItems : List Jval → Option (List Definition)
  | [] => some []
  | j :: js => (decodeDefinition j).bind (fun d => (decDefItems js).map (fun r => d :: r))

/-- Unmarshal a JSON value into a `[]Definition` field. -/
def asDefList : Jval → Option (List Definition)
  | .jnull => some []
  | .jarr items => decDefItems items
  | _ => none

/-- Apply one JSON object field to a `WordCache` being decoded. -/
def applyCacheField (c : WordCache) (kv : GoStr × Jval) : Option WordCache :=
  if kv.1 = ascii "Definitions" then (asDefList kv.2).map (fun l => { c with Definitions := l })
  else if kv.1 = ascii "Phonetic" then (asStr kv.2).map (fun s => { c with Phonetic := s })
  else if kv.1 = ascii "Origin" then (asStr kv.2).map (fun s => { c with Origin := s })
  else if kv.1 = ascii "Synonyms" then (asStrList kv.2).map (fun l => { c with Synonyms := l })
  else if kv.1 = ascii "Antonyms" then (asStrList kv.2).map (fun l => { c with Antonyms := l })
  else some c

/-- Fold the object fields over a `WordCache` under decode. -/
def decodeFieldsC : WordCache → List (GoStr × Jval) → Option WordCache
  | c, [] => some c
  | c, kv :: rest => (applyCacheField c kv).bind (fun c2 => decodeFieldsC c2 rest)

/-- Unmarshal a `WordCache` from a JSON value. -/
def decodeWordCache : Jval → Option WordCache
  | .jobj fs => decodeFieldsC emptyWordCache fs
  | .jnull => some emptyWordCache
  | _ => none

/-- Unmarshal the top-level object into the word-cache map, entry by
entry. -/
def decEntryItems : List (GoStr × Jval) → Option (List (GoStr × WordCache))
  | [] => some []
  | kv :: rest =>
    (decodeWordCache kv.2).bind (fun c => (decEntryItems rest).map (fun r => (kv.1, c) :: r))

/-- Source `loadWordCache` (main.go:247-260): unmarshal the persisted
document into the (initially empty) map; a document that is not an
object of `WordCache` values is an unmarshal failure (the source then
resets to the empty map). -/
def loadWordCache : Jval → Option (List (GoStr × WordCache))
  | .jobj fs => decEntryItems fs
  | _ => none

/-- The `UnknownWords.txt` writer loop (main.go:873-877): for each
entry of the sorted unknown-word list, write the capitalized word and
a newline TWICE. -/
def unknownWordsContent (entries : List (GoStr × Nat)) : GoStr :=
  entries.foldl
    (fun acc p => acc ++ (capitalizePhrase p.1 ++ [10]) ++ (capitalizePhrase p.1 ++ [10]))
    []

/-- The full `UnknownWords.txt` pipeline (main.go:846-877): drop the
empty word, sort by frequency descending, then run the writer loop. -/
def unknownWordsFileContent (uniqueUnknown : List (GoStr × Nat)) : GoStr :=
  unknownWordsContent (sortPairsByFreq (uniqueUnknown.filter (fun p => !p.1.isEmpty)))

/-- The lines of a text file: split on newline, ignoring the trailing
empty fragment produced by a final newline. -/
def fileLines (s : GoStr) : List GoStr :=
  let parts := splitOnByte 10 s
  if parts.getLast? = some [] then parts.dropLast else parts

/-- A configuration with every toggle off. -/
def cfgAllOff : OutputConfig := ⟨false, false, false, false, false⟩

/-- A configuration whose only active toggle is the example filter. -/
def cfgFilterOnly : OutputConfig := ⟨false, false, false, false, true⟩

/-- The re-query toggle enabled. -/
def qcRequery : QueryConfig := ⟨true⟩

/-- The re-query toggle disabled (the documented default,
main.go:199). -/
def qcNoRequery : QueryConfig := ⟨false⟩

/-- A run in which the dictionary service is unreachable: every
attempt is a transport error. -/
def netDown : GoStr → ApiReply := fun _ => .noReply

/-- The empty resolver state (fresh run, no persisted files). -/
def stEmpty : St := ⟨[], [], 0⟩

/-- A cache entry whose single definition has no example sentence. -/
def cdNoExample : WordCache := ⟨[⟨ascii "noun", ascii "a thing", [], [], []⟩], [], [], [], []⟩

/-- A state whose cache holds `gleep` with `cdNoExample`. -/
def stGleep : St := ⟨[(ascii "gleep", cdNoExample)], [], 0⟩

/-- The character set that claim C3 says the filter keeps: Latin
letters, space, hyphen. -/
def claimKeepSet (r : Nat) : Bool :=
  (isLetterR r && inLatinR r) || r == 32 || r == 45

/-- A word is settled in a state when it carries an unknown marker or a
cache entry: the states in which the resolver issues no further network
attempt while the re-query toggle is off. -/
def settled (st : St) (w : GoStr) : Prop :=
  st.wordUnknown.contains w = true ∨ (List.lookup w st.wordCache).isSome = true

theorem keepCond_iff (r : Nat) :
    (((isLetterR r || r == 32 || r == 45 || r == 47) && inLatinR r) = true) ↔
      (isLetterR r = true ∧ inLatinR r = true) := by
  constructor
  · intro h
    simp only [Bool.and_eq_true, Bool.or_eq_true, beq_iff_eq] at h
    obtain ⟨h1, h2⟩ := h
    refine ⟨?_, h2⟩
    rcases h1 with ((hl | h32) | h45) | h47
    · exact hl
    · subst h32; exact absurd h2 (by decide)
    · subst h45; exact absurd h2 (by decide)
    · subst h47; exact absurd h2 (by decide)
  · intro h
    simp [h.1, h.2]

/-- Claim C3, amended: the classifier keeps a slash-split, trimmed
candidate if and only if every rune of it is a letter of the Latin
script.  The space and hyphen of the claimed character set are in fact
rejected: the separate Latin-script check of the loop excludes them, so
the first condition collapses to requiring a Latin letter. -/
theorem claimC3_amended (s : GoStr) :
    isEnglishText s = true ↔ ∀ r ∈ utf8Runes s, isLetterR r = true ∧ inLatinR r = true := by
  unfold isEnglishText
  rw [List.all_eq_true]
  constructor
  · intro h r hr
    exact (keepCond_iff r).mp (h r hr)
  · intro h r hr
    exact (keepCond_iff r).mpr (h r hr)

/-- Claim C3, counterexample: every character of the candidate a-b is
in the character set the claim says is kept (Latin letters, space,
hyphen), yet `isEnglishText` discards the candidate, because the hyphen
fails the Latin-script check of the second loop condition. -/
theorem claimC3_counterexample :
    (utf8Runes (ascii "a-b")).all claimKeepSet = true ∧
    isEnglishText (ascii "a-b") = false := by decide

theorem classifyToken_categorized (st : ClassifyState) (tok : Token) (c : Category) :
    (classifyToken st tok).categorized c =
      st.categorized c ++
        (if tagCategory tok.Tag = c
         then (splitSlashSeparatedWords (goToLower tok.Text)).filter (fun p => isEnglishText p)
         else []) := by
  unfold classifyToken
  generalize splitSlashSeparatedWords (goToLower tok.Text) = parts
  induction parts generalizing st with
  | nil => simp
  | cons p ps ih =>
    rw [List.foldl_cons]
    by_cases hp : isEnglishText p
    · rw [ih]
      by_cases hc : tagCategory tok.Tag = c
      · subst hc
        simp [hp, List.filter_cons, List.append_assoc]
      · have hc2 : ¬ (c = tagCategory tok.Tag) := fun h => hc h.symm
        simp [hp, hc, hc2, List.filter_cons]
    · rw [ih]
      simp [hp, List.filter_cons]

/-- Claim C1, amended: the classifier re-buckets per occurrence.  Each
category list is exactly the candidates of the tokens whose tag maps to
that category, in token order; the category of an occurrence is decided
by the tag OF THAT OCCURRENCE, so a word tagged differently at
different occurrences lands in several categories. -/
theorem claimC1_amended (toks : List Token) (c : Category) :
    (classifyTokens toks).categorized c =
      toks.flatMap (fun t =>
        if tagCategory t.Tag = c
        then (splitSlashSeparatedWords (goToLower t.Text)).filter (fun p => isEnglishText p)
        else []) := by
  suffices h : ∀ (ts : List Token) (st : ClassifyState),
      ((ts.foldl classifyToken st).categorized c) =
        st.categorized c ++ ts.flatMap (fun t =>
          if tagCategory t.Tag = c
          then (splitSlashSeparatedWords (goToLower t.Text)).filter (fun p => isEnglishText p)
          else []) by
    simpa [classifyTokens] using h toks { categorized := fun _ => [], allWords := [] }
  intro ts
  induction ts with
  | nil => intro st; simp
  | cons t ts2 ih =>
    intro st
    rw [List.foldl_cons, ih, classifyToken_categorized]
    simp [List.append_assoc]

/-- Claim C1, counterexample: for the token sequence
[(Bank, NN), (bank, VB)] the normalized word bank is placed in TWO
categories (Nouns and Verbs), not in exactly one as the claim states:
the second occurrence is re-bucketed by its own tag. -/
theorem claimC1_counterexample :
    categoriesContaining
      (classifyTokens [⟨ascii "Bank", ascii "NN"⟩, ⟨ascii "bank", ascii "VB"⟩])
      (ascii "bank") = 2 := by decide

/-- Claim C9: the Latin-text filter accepts the empty string (the
character-wise loop is vacuously true), so the token writer/ with a
trailing slash yields an empty candidate that passes the filter, is
counted in the all-words frequency map, and is appended to the Nouns
category list. -/
theorem claimC9_empty_candidate :
    isEnglishText [] = true ∧
    splitSlashSeparatedWords (ascii "writer/") = [ascii "writer", []] ∧
    List.lookup [] (classifyTokens [⟨ascii "writer/", ascii "NN"⟩]).allWords = some 1 ∧
    (classifyTokens [⟨ascii "writer/", ascii "NN"⟩]).categorized .Nouns =
      [ascii "writer", []] := by decide

/-- Claim C8, evaluation at the failing input: `capitalizePhrase` takes
the first BYTE of each word (`string(word[0])`), so on the two-byte
word é (bytes 195 169) it splits the character, producing the bytes of
the two-character string whose first character is à with a circumflex
equivalent (U+00C3) followed by U+FFFD; a second application mangles
the tail again, so canonicalize composed with itself differs from
canonicalize, refuting idempotence. -/
theorem claimC8_bug_eval :
    capitalizePhrase [195, 169] = [195, 131, 239, 191, 189] ∧
    capitalizePhrase (capitalizePhrase [195, 169]) =
      [195, 131, 239, 191, 189, 239, 191, 189] ∧
    capitalizePhrase (capitalizePhrase [195, 169]) ≠ capitalizePhrase [195, 169] := by decide

theorem mem_insertByFreq {x y : GoStr × Nat} {l : List (GoStr × Nat)}
    (h : y ∈ insertByFreq x l) : y = x ∨ y ∈ l := by
  induction l with
  | nil =>
    rw [show insertByFreq x [] = [x] from rfl] at h
    exact Or.inl (List.mem_singleton.mp h)
  | cons z zs ih =>
    rw [show insertByFreq x (z :: zs) =
        if z.2 < x.2 then x :: z :: zs else z :: insertByFreq x zs from rfl] at h
    by_cases hc : z.2 < x.2
    · rw [if_pos hc] at h
      rcases List.mem_cons.mp h with h1 | h1
      · exact Or.inl h1
      · exact Or.inr h1
    · rw [if_neg hc] at h
      rcases List.mem_cons.mp h with h1 | h1
      · exact Or.inr (List.mem_cons.mpr (Or.inl h1))
      · rcases ih h1 with h2 | h2
        · exact Or.inl h2
        · exact Or.inr (List.mem_cons.mpr (Or.inr h2))

theorem insertByFreq_sorted {x : GoStr × Nat} {l : List (GoStr × Nat)}
    (h : List.Pairwise (fun a b : GoStr × Nat => b.2 ≤ a.2) l) :
    List.Pairwise (fun a b : GoStr × Nat => b.2 ≤ a.2) (insertByFreq x l) := by
  induction l with
  | nil => simp [insertByFreq]
  | cons z zs ih =>
    rcases List.pairwise_cons.mp h with ⟨hz, hzs⟩
    rw [show insertByFreq x (z :: zs) =
        if z.2 < x.2 then x :: z :: zs else z :: insertByFreq x zs from rfl]
    by_cases hc : z.2 < x.2
    · rw [if_pos hc]
      refine List.pairwise_cons.mpr ⟨?_, h⟩
      intro y hy
      rcases List.mem_cons.mp hy with h2 | h2
      · subst h2; exact Nat.le_of_lt hc
      · exact Nat.le_trans (hz y h2) (Nat.le_of_lt hc)
    · rw [if_neg hc]
      refine List.pairwise_cons.mpr ⟨?_, ih hzs⟩
      intro y hy
      rcases mem_insertByFreq hy with h2 | h2
      · subst h2; exact Nat.le_of_not_lt hc
      · exact hz y h2

theorem sortPairsByFreq_sorted (l : List (GoStr × Nat)) :
    List.Pairwise (fun a b : GoStr × Nat => b.2 ≤ a.2) (sortPairsByFreq l) := by
  unfold sortPairsByFreq
  induction l with
  | nil => simp
  | cons x xs ih => exact insertByFreq_sorted ih

/-- Claim C6: the frequency ranker counts case-insensitively under the
capitalized form and returns the pairs by count descending; on the
word list [cat, Cat, dog, cat] it yields [(Cat, 3), (Dog, 1)] (both as
pairs and as the word projection the source returns), and for every
input history the ranked pairs are non-increasing in their counts. -/
theorem claimC6_rank :
    rank [ascii "cat", ascii "Cat", ascii "dog", ascii "cat"] =
      [(ascii "Cat", 3), (ascii "Dog", 1)] ∧
    sortByFrequency (countFrequencies [ascii "cat", ascii "Cat", ascii "dog", ascii "cat"]) =
      [ascii "Cat", ascii "Dog"] ∧
    ∀ ws : List GoStr,
      List.Pairwise (fun a b : GoStr × Nat => b.2 ≤ a.2) (rank ws) :=
  ⟨by decide, by decide, fun ws => sortPairsByFreq_sorted _⟩

theorem unknownWordsContent_eq (entries : List (GoStr × Nat)) :
    unknownWordsContent entries =
      entries.flatMap (fun p =>
        (capitalizePhrase p.1 ++ [10]) ++ (capitalizePhrase p.1 ++ [10])) := by
  suffices h : ∀ (es : List (GoStr × Nat)) (acc : GoStr),
      es.foldl
        (fun acc p => acc ++ (capitalizePhrase p.1 ++ [10]) ++ (capitalizePhrase p.1 ++ [10]))
        acc =
        acc ++ es.flatMap (fun p =>
          (capitalizePhrase p.1 ++ [10]) ++ (capitalizePhrase p.1 ++ [10])) by
    simpa [unknownWordsContent] using h entries []
  intro es
  induction es with
  | nil => intro acc; simp
  | cons p ps ih =>
    intro acc
    rw [List.foldl_cons, ih]
    simp [List.append_assoc]

theorem splitOnByte_append (sep : Nat) (a rest : GoStr) (ha : ∀ b ∈ a, b ≠ sep) :
    splitOnByte sep (a ++ sep :: rest) = a :: splitOnByte sep rest := by
  induction a with
  | nil => simp [splitOnByte]
  | cons b bs ih =>
    have hb : b ≠ sep := ha b (by simp)
    have ih2 := ih (fun x hx => ha x (by simp [hx]))
    simp only [List.cons_append, splitOnByte, List.append_eq]
    rw [if_neg hb, ih2]

theorem splitUnknownContent (entries : List (GoStr × Nat))
    (h : ∀ p ∈ entries, ∀ b ∈ capitalizePhrase p.1, b ≠ 10) :
    splitOnByte 10 (unknownWordsContent entries) =
      entries.flatMap (fun p => [capitalizePhrase p.1, capitalizePhrase p.1]) ++ [[]] := by
  rw [unknownWordsContent_eq]
  induction entries with
  | nil => simp [splitOnByte]
  | cons p ps ih =>
    have hp := h p (by simp)
    have ih2 := ih (fun q hq => h q (by simp [hq]))
    have hshape :
        (p :: ps).flatMap (fun q =>
          (capitalizePhrase q.1 ++ [10]) ++ (capitalizePhrase q.1 ++ [10])) =
        capitalizePhrase p.1 ++ 10 ::
          (capitalizePhrase p.1 ++ 10 ::
            (ps.flatMap (fun q =>
              (capitalizePhrase q.1 ++ [10]) ++ (capitalizePhrase q.1 ++ [10])))) := by
      simp
    rw [hshape, splitOnByte_append 10 _ _ hp, splitOnByte_append 10 _ _ hp, ih2]
    simp

/-- Claim C10: the UnknownWords.txt writer emits the capitalized word
twice per entry, so for every entry list (whose capitalized words
contain no newline byte, as the capitalizer guarantees for its inputs)
the lines of the file are each unknown word repeated twice in
consecutive identical lines. -/
theorem claimC10_double_lines (entries : List (GoStr × Nat))
    (h : ∀ p ∈ entries, ∀ b ∈ capitalizePhrase p.1, b ≠ 10) :
    fileLines (unknownWordsContent entries) =
      entries.flatMap (fun p => [capitalizePhrase p.1, capitalizePhrase p.1]) := by
  unfold fileLines
  rw [splitUnknownContent entries h]
  simp [List.getLast?_concat, List.dropLast_concat]

/-- Claim C10, witness: two concrete unknown-word entries produce the
four lines Gleep, Gleep, Zorp, Zorp. -/
theorem claimC10_witness :
    (∀ p ∈ [(ascii "gleep", (2:Nat)), (ascii "zorp", 1)],
        ∀ b ∈ capitalizePhrase p.1, b ≠ 10) ∧
    fileLines (unknownWordsContent [(ascii "gleep", 2), (ascii "zorp", 1)]) =
      [(ascii "gleep", (2:Nat)), (ascii "zorp", 1)].flatMap
        (fun p => [capitalizePhrase p.1, capitalizePhrase p.1]) :=
  ⟨by decide, claimC10_double_lines _ (by decide)⟩

/-- Decoding an encoded string array restores the strings. -/
theorem decStrItems_map (l : List GoStr) : decStrItems (l.map Jval.jstr) = some l := by
  induction l with
  | nil => rfl
  | cons s ss ih => simp [decStrItems, ih]

/-- Decoding an encoded `Definition` restores it field by field. -/
theorem decodeDefinition_encode (d : Definition) :
    decodeDefinition (encodeDefinition d) = some d := by
  cases d with
  | mk pos dfn ex syns ants =>
    simp +decide [encodeDefinition, decodeDefinition, decodeFieldsD, applyDefField, asStr,
      asStrList, decStrItems_map]

/-- Decoding an encoded definition array restores it element-wise, in
order. -/
theorem decDefItems_map (l : List Definition) :
    decDefItems (l.map encodeDefinition) = some l := by
  induction l with
  | nil => rfl
  | cons d ds ih => simp [decDefItems, decodeDefinition_encode, ih]

/-- Decoding an encoded `WordCache` restores it, including the
definitions list in its original order. -/
theorem decodeWordCache_encode (c : WordCache) :
    decodeWordCache (encodeWordCache c) = some c := by
  cases c with
  | mk defs ph org syns ants =>
    simp +decide [encodeWordCache, decodeWordCache, decodeFieldsC, applyCacheField, asStr,
      asStrList, asDefList, decStrItems_map, decDefItems_map]

/-- Claim C7: persisting the word cache and reloading it yields the
same map, so in particular every word keeps a definitions list
identical in content and order to the original. -/
theorem claimC7_roundtrip (m : List (GoStr × WordCache)) :
    loadWordCache (saveWordCache m) = some m := by
  suffices h : decEntryItems (m.map (fun p => (p.1, encodeWordCache p.2))) = some m by
    simpa [saveWordCache, loadWordCache] using h
  induction m with
  | nil => rfl
  | cons p ps ih => simp [decEntryItems, decodeWordCache_encode, ih]

theorem insertUnknown_contains (u : List GoStr) (w : GoStr) :
    (insertUnknown u w).contains w = true := by
  unfold insertUnknown
  cases hc : u.contains w
  · rw [if_neg Bool.false_ne_true]
    simp
  · rw [if_pos rfl]
    exact hc

theorem qda_spec (net : GoStr → ApiReply) (w : GoStr) (st : St) :
    (queryDictionaryAPI net w st).2.netCalls = st.netCalls + 1 ∧
    (queryDictionaryAPI net w st).2.wordUnknown = st.wordUnknown := by
  unfold queryDictionaryAPI
  cases net w with
  | noReply => exact ⟨rfl, rfl⟩
  | reply status body =>
    dsimp only
    by_cases hs : status = 200
    · subst hs
      rw [if_neg (by simp)]
      cases body with
      | malformed => exact ⟨rfl, rfl⟩
      | entries es =>
        cases es with
        | nil => exact ⟨rfl, rfl⟩
        | cons e0 r =>
          dsimp only
          cases hd : (processEntry e0).Definitions.isEmpty
          · rw [if_neg Bool.false_ne_true]; exact ⟨rfl, rfl⟩
          · rw [if_pos rfl]; exact ⟨rfl, rfl⟩
    · rw [if_pos hs]; exact ⟨rfl, rfl⟩

theorem qda_fail (net : GoStr → ApiReply) (w : GoStr) (st : St)
    (h : apiFailure (net w) = true) :
    queryDictionaryAPI net w st = (false, { st with netCalls := st.netCalls + 1 }) := by
  unfold queryDictionaryAPI
  unfold apiFailure at h
  cases hnw : net w with
  | noReply => rfl
  | reply status body =>
    rw [hnw] at h
    dsimp only at h ⊢
    by_cases hs : status = 200
    · subst hs
      rw [if_neg (by simp)]
      rw [if_neg (by simp)] at h
      cases body with
      | malformed => rfl
      | entries es =>
        cases es with
        | nil => rfl
        | cons e0 r => cases h
    · rw [if_pos hs]

theorem formatDetails_cases (cfg : OutputConfig) (w : GoStr) (cd : WordCache) (st : St) :
    (cd.Definitions.isEmpty = true ∧
      formatDetails cfg w cd st =
        ([], { st with wordUnknown := insertUnknown st.wordUnknown w })) ∨
    (cd.Definitions.isEmpty = false ∧ (formatDetails cfg w cd st).2 = st) := by
  unfold formatDetails
  cases hd : cd.Definitions.isEmpty
  · refine Or.inr ⟨rfl, ?_⟩
    rw [if_neg Bool.false_ne_true]
  · refine Or.inl ⟨rfl, ?_⟩
    rw [if_pos rfl]

theorem formatDetails_netCalls (cfg : OutputConfig) (w : GoStr) (cd : WordCache) (st : St) :
    (formatDetails cfg w cd st).2.netCalls = st.netCalls := by
  rcases formatDetails_cases cfg w cd st with ⟨_, h⟩ | ⟨_, h⟩
  · rw [h]
  · rw [h]

theorem formatDetails_settled (cfg : OutputConfig) (w : GoStr) (cd : WordCache) (st : St)
    (h : (List.lookup w st.wordCache).isSome = true) :
    settled (formatDetails cfg w cd st).2 w := by
  rcases formatDetails_cases cfg w cd st with ⟨_, h2⟩ | ⟨_, h2⟩
  · rw [h2]; exact Or.inl (insertUnknown_contains _ _)
  · rw [h2]; exact Or.inr h

theorem fetchCachePhase_calls_le (cfg : OutputConfig) (net : GoStr → ApiReply) (w : GoStr)
    (st : St) : (fetchCachePhase cfg net w st).2.netCalls ≤ st.netCalls + 1 := by
  unfold fetchCachePhase
  cases hl : List.lookup w st.wordCache with
  | some cd =>
    rw [formatDetails_netCalls]
    exact Nat.le_succ _
  | none =>
    dsimp only
    cases hq : (queryDictionaryAPI net w st).1
    · rw [Bool.not_false, if_pos rfl]
      exact Nat.le_of_eq (qda_spec net w st).1
    · rw [Bool.not_true, if_neg Bool.false_ne_true]
      rw [formatDetails_netCalls]
      exact Nat.le_of_eq (qda_spec net w st).1

theorem fetchCachePhase_settled (cfg : OutputConfig) (net : GoStr → ApiReply) (w : GoStr)
    (st : St) : settled (fetchCachePhase cfg net w st).2 w := by
  unfold fetchCachePhase
  cases hl : List.lookup w st.wordCache with
  | some cd =>
    exact formatDetails_settled cfg w cd st (by rw [hl]; rfl)
  | none =>
    dsimp only
    cases hq : (queryDictionaryAPI net w st).1
    · rw [Bool.not_false, if_pos rfl]
      exact Or.inl (insertUnknown_contains _ _)
    · rw [Bool.not_true, if_neg Bool.false_ne_true]
      cases hl2 : List.lookup w (queryDictionaryAPI net w st).2.wordCache with
      | none =>
        rcases formatDetails_cases cfg w (Option.getD none emptyWordCache)
            (queryDictionaryAPI net w st).2 with ⟨_, h2⟩ | ⟨h1, _⟩
        · rw [h2]
          exact Or.inl (insertUnknown_contains _ _)
        · exact absurd h1 (by decide)
      | some cd2 =>
        exact formatDetails_settled cfg w _ _ (by rw [hl2]; rfl)

theorem fetchCachePhase_no_call (cfg : OutputConfig) (net : GoStr → ApiReply) (w : GoStr)
    (st : St) (h : (List.lookup w st.wordCache).isSome = true) :
    (fetchCachePhase cfg net w st).2.netCalls = st.netCalls := by
  unfold fetchCachePhase
  cases hl : List.lookup w st.wordCache with
  | some cd => exact formatDetails_netCalls cfg w cd st
  | none => rw [hl] at h; cases h

theorem fetch_post_settled (cfg : OutputConfig) (qc : QueryConfig) (net : GoStr → ApiReply)
    (word : GoStr) (st : St) :
    settled (fetchWordDetails cfg qc net word st).2 (goToLower word) := by
  unfold fetchWordDetails
  dsimp only
  cases hcu : st.wordUnknown.contains (goToLower word)
  · rw [if_neg Bool.false_ne_true]
    exact fetchCachePhase_settled cfg net (goToLower word) st
  · rw [if_pos rfl]
    cases hq0 : qc.QueryForUnknownWords
    · rw [Bool.not_false, if_pos rfl]
      exact Or.inl hcu
    · rw [Bool.not_true, if_neg Bool.false_ne_true]
      cases hq : (queryDictionaryAPI net (goToLower word) st).1
      · rw [Bool.not_false, if_pos rfl]
        exact Or.inl (((qda_spec net (goToLower word) st).2) ▸ hcu)
      · rw [Bool.not_true, if_neg Bool.false_ne_true]
        exact fetchCachePhase_settled cfg net (goToLower word) _

theorem fetch_calls_le (cfg : OutputConfig) (qc : QueryConfig) (net : GoStr → ApiReply)
    (word : GoStr) (st : St) (h : qc.QueryForUnknownWords = false) :
    (fetchWordDetails cfg qc net word st).2.netCalls ≤ st.netCalls + 1 := by
  unfold fetchWordDetails
  dsimp only
  cases hcu : st.wordUnknown.contains (goToLower word)
  · rw [if_neg Bool.false_ne_true]
    exact fetchCachePhase_calls_le cfg net (goToLower word) st
  · rw [if_pos rfl, h, Bool.not_false, if_pos rfl]
    exact Nat.le_succ _

theorem fetch_no_call_of_settled (cfg : OutputConfig) (qc : QueryConfig)
    (net : GoStr → ApiReply) (word : GoStr) (st : St) (h : qc.QueryForUnknownWords = false)
    (hs : settled st (goToLower word)) :
    (fetchWordDetails cfg qc net word st).2.netCalls = st.netCalls := by
  unfold fetchWordDetails
  dsimp only
  cases hcu : st.wordUnknown.contains (goToLower word)
  · rcases hs with hs | hs
    · rw [hcu] at hs; cases hs
    · rw [if_neg Bool.false_ne_true]
      exact fetchCachePhase_no_call cfg net (goToLower word) st hs
  · rw [if_pos rfl, h, Bool.not_false, if_pos rfl]

/-- Claim C2, amended: with queryForUnknownWords disabled (the
documented default), a single resolver invocation issues at most one
network attempt and a second invocation for the same word in the same
run issues none, because the first invocation always leaves the word
cached or unknown-marked and both stores are checked before any
attempt.  With the toggle enabled the guarantee fails (see the
counterexample). -/
theorem claimC2_amended (cfg : OutputConfig) (qc : QueryConfig) (net : GoStr → ApiReply)
    (word : GoStr) (st : St) (h : qc.QueryForUnknownWords = false) :
    (fetchWordDetails cfg qc net word (fetchWordDetails cfg qc net word st).2).2.netCalls =
      (fetchWordDetails cfg qc net word st).2.netCalls ∧
    (fetchWordDetails cfg qc net word st).2.netCalls ≤ st.netCalls + 1 :=
  ⟨fetch_no_call_of_settled cfg qc net word _ h (fetch_post_settled cfg qc net word st),
   fetch_calls_le cfg qc net word st h⟩

/-- Claim C2, counterexample: with queryForUnknownWords enabled and a
word the service cannot resolve, invoking the resolver twice for the
same word in the same run issues TWO network attempts (the unknown
marker does not suppress the re-query), refuting the claim under any
configuration. -/
theorem claimC2_counterexample :
    (fetchWordDetails cfgAllOff qcRequery netDown (ascii "bank")
      (fetchWordDetails cfgAllOff qcRequery netDown (ascii "bank") stEmpty).2).2.netCalls
      = 2 := by decide

/-- Claim C2, witness: the amended guarantee at a concrete run with
the re-query toggle off and an unreachable service. -/
theorem claimC2_witness :
    qcNoRequery.QueryForUnknownWords = false ∧
    ((fetchWordDetails cfgAllOff qcNoRequery netDown (ascii "bank")
        (fetchWordDetails cfgAllOff qcNoRequery netDown (ascii "bank") stEmpty).2).2.netCalls =
      (fetchWordDetails cfgAllOff qcNoRequery netDown (ascii "bank") stEmpty).2.netCalls ∧
     (fetchWordDetails cfgAllOff qcNoRequery netDown (ascii "bank") stEmpty).2.netCalls ≤
       stEmpty.netCalls + 1) :=
  ⟨rfl, claimC2_amended cfgAllOff qcNoRequery netDown (ascii "bank") stEmpty rfl⟩

/-- Claim C4: whatever way the remote lookup fails (transport error,
non-200 status, malformed body, empty result array), the resolver
behaves identically: it returns the empty result, the word carries an
unknown marker afterwards, and the call returns normally (the model is
a total function), so the run continues. -/
theorem claimC4_failure (cfg : OutputConfig) (qc : QueryConfig) (net : GoStr → ApiReply)
    (word : GoStr) (st : St)
    (hfail : apiFailure (net (goToLower word)) = true)
    (hmiss : List.lookup (goToLower word) st.wordCache = none) :
    (fetchWordDetails cfg qc net word st).1 = [] ∧
    (fetchWordDetails cfg qc net word st).2.wordUnknown.contains (goToLower word) = true := by
  unfold fetchWordDetails
  dsimp only
  cases hcu : st.wordUnknown.contains (goToLower word)
  · rw [if_neg Bool.false_ne_true]
    unfold fetchCachePhase
    rw [hmiss]
    rw [qda_fail net (goToLower word) st hfail]
    exact ⟨rfl, insertUnknown_contains _ _⟩
  · rw [if_pos rfl]
    cases hq0 : qc.QueryForUnknownWords
    · rw [Bool.not_false, if_pos rfl]
      exact ⟨rfl, hcu⟩
    · rw [Bool.not_true, if_neg Bool.false_ne_true]
      rw [qda_fail net (goToLower word) st hfail]
      exact ⟨rfl, hcu⟩

/-- Claim C4, witness: a concrete word on an unreachable service is
returned empty and marked unknown. -/
theorem claimC4_witness :
    (apiFailure (netDown (goToLower (ascii "Foo"))) = true ∧
     List.lookup (goToLower (ascii "Foo")) stEmpty.wordCache = none) ∧
    ((fetchWordDetails cfgAllOff qcNoRequery netDown (ascii "Foo") stEmpty).1 = [] ∧
     (fetchWordDetails cfgAllOff qcNoRequery netDown (ascii "Foo") stEmpty).2.wordUnknown.contains
       (goToLower (ascii "Foo")) = true) :=
  ⟨⟨by decide, by decide⟩,
   claimC4_failure cfgAllOff qcNoRequery netDown (ascii "Foo") stEmpty (by decide) (by decide)⟩

theorem defLineText_skip (cfg : OutputConfig) (cap : GoStr) (i : Nat) (d : Definition)
    (hf : cfg.FilterNoExample = true) (hd : d.Example = []) :
    defLineText cfg cap i d = [] := by
  unfold defLineText
  rw [hf, hd]
  rfl

theorem enumFromDefs_nil (cfg : OutputConfig) (cap : GoStr) (hf : cfg.FilterNoExample = true) :
    ∀ (ds : List Definition) (n : Nat), (∀ d ∈ ds, d.Example = []) →
    ((List.enumFrom n ds).map (fun p => defLineText cfg cap p.1 p.2)).flatten = [] := by
  intro ds
  induction ds with
  | nil => intro n _; rfl
  | cons d ds2 ih =>
    intro n hex
    rw [List.enumFrom, List.map_cons, List.flatten_cons]
    rw [defLineText_skip cfg cap n d hf (hex d (by simp)), List.nil_append]
    exact ih (n + 1) (fun d2 hd2 => hex d2 (by simp [hd2]))

theorem dropWhileNL_eq_self (l : GoStr) (h : ∀ b ∈ l, b ≠ 10) :
    l.dropWhile (fun b => b == 10) = l := by
  cases l with
  | nil => rfl
  | cons c cs =>
    have hc : c ≠ 10 := h c (by simp)
    rw [List.dropWhile_cons, if_neg (by simpa using hc)]

theorem goTrimNL_word (cap : GoStr) (h : ∀ b ∈ cap, b ≠ 10) :
    goTrimNL (cap ++ [10]) = cap := by
  unfold goTrimNL
  cases cap with
  | nil => rfl
  | cons c cs =>
    have hc : c ≠ 10 := h c (by simp)
    rw [List.cons_append, List.dropWhile_cons, if_neg (by simpa using hc)]
    rw [show (c :: (cs ++ [10])).reverse = 10 :: (cs.reverse ++ [c]) by simp]
    rw [List.dropWhile_cons, if_pos (by simp)]
    rw [dropWhileNL_eq_self _ (by
      intro b hb
      rcases List.mem_append.mp hb with hb2 | hb2
      · exact h b (by simp [List.mem_reverse.mp hb2])
      · rw [List.mem_singleton.mp hb2]; exact hc)]
    simp

/-- Claim C5, amended: the formatter never emits a no-details line.  A
cached word with an empty definitions list yields the EMPTY result and
an unknown marking (the word is omitted from the explanation output
and routed to UnknownWords.txt); when the example filter removes every
definition the output is just the capitalized word header. -/
theorem claimC5_amended (cfg : OutputConfig) (qc : QueryConfig) (net : GoStr → ApiReply)
    (word : GoStr) (st : St) (cd : WordCache)
    (hcached : List.lookup (goToLower word) st.wordCache = some cd)
    (hnotun : st.wordUnknown.contains (goToLower word) = false)
    (h10 : ∀ b ∈ capitalizePhrase (goToLower word), b ≠ 10)
    (hph : cfg.IncludePhonetic = false) (hor : cfg.IncludeOrigin = false) :
    (cd.Definitions = [] →
       (fetchWordDetails cfg qc net word st).1 = [] ∧
       (fetchWordDetails cfg qc net word st).2.wordUnknown.contains (goToLower word) = true) ∧
    (cfg.FilterNoExample = true → cd.Definitions ≠ [] →
       (∀ d ∈ cd.Definitions, d.Example = []) →
       (fetchWordDetails cfg qc net word st).1 = capitalizePhrase (goToLower word)) := by
  have hfetch : fetchWordDetails cfg qc net word st =
      formatDetails cfg (goToLower word) cd st := by
    unfold fetchWordDetails
    dsimp only
    rw [hnotun, if_neg Bool.false_ne_true]
    unfold fetchCachePhase
    rw [hcached]
  rw [hfetch]
  constructor
  · intro hdefs
    unfold formatDetails
    dsimp only
    rw [hdefs, if_pos (show ([] : List Definition).isEmpty = true from rfl)]
    exact ⟨rfl, insertUnknown_contains _ _⟩
  · intro hf hne hex
    have hie : cd.Definitions.isEmpty = false := by
      cases hcd : cd.Definitions with
      | nil => exact absurd hcd hne
      | cons a l => rfl
    unfold formatDetails
    dsimp only
    rw [hie, if_neg Bool.false_ne_true]
    rw [hph, Bool.and_false, if_neg Bool.false_ne_true]
    rw [hor, Bool.false_and, if_neg Bool.false_ne_true]
    rw [show cd.Definitions.enum = List.enumFrom 0 cd.Definitions from rfl]
    rw [enumFromDefs_nil cfg _ hf cd.Definitions 0 hex]
    simp only [List.append_nil, List.nil_append]
    exact goTrimNL_word _ h10

/-- Claim C5, counterexample: a cached word whose single definition has
no example, under the example filter, is formatted as just the word
header Gleep with no no-details-available line anywhere in the output
(checked case-insensitively), contrary to the claimed fallback
line. -/
theorem claimC5_counterexample :
    (fetchWordDetails cfgFilterOnly qcNoRequery netDown (ascii "gleep") stGleep).1 =
      ascii "Gleep" ∧
    ¬ (ascii "no details available") <:+:
        goToLower (fetchWordDetails cfgFilterOnly qcNoRequery netDown
          (ascii "gleep") stGleep).1 := by decide

/-- Claim C5, witness: the amended behavior at the concrete filtered
cache entry. -/
theorem claimC5_witness :
    (List.lookup (goToLower (ascii "gleep")) stGleep.wordCache = some cdNoExample ∧
     stGleep.wordUnknown.contains (goToLower (ascii "gleep")) = false ∧
     cfgFilterOnly.FilterNoExample = true ∧ cdNoExample.Definitions ≠ []) ∧
    ((cdNoExample.Definitions = [] →
       (fetchWordDetails cfgFilterOnly qcNoRequery netDown (ascii "gleep") stGleep).1 = [] ∧
       (fetchWordDetails cfgFilterOnly qcNoRequery netDown
         (ascii "gleep") stGleep).2.wordUnknown.contains (goToLower (ascii "gleep")) = true) ∧
     (cfgFilterOnly.FilterNoExample = true → cdNoExample.Definitions ≠ [] →
       (∀ d ∈ cdNoExample.Definitions, d.Example = []) →
       (fetchWordDetails cfgFilterOnly qcNoRequery netDown (ascii "gleep") stGleep).1 =
         capitalizePhrase (goToLower (ascii "gleep")))) :=
  ⟨⟨by decide, by decide, rfl, by decide⟩,
   claimC5_amended cfgFilterOnly qcNoRequery netDown (ascii "gleep") stGleep cdNoExample
     (by decide) (by decide) (by decide) rfl rfl⟩
